import Mathlib

/-!
# fakegoget: the vanity-import metadata server of `main.go`

A shallow embedding of `main.go`: the record type `Meta`, the template
`metatpl`, the table `pkgs.m`, the handler `getpkg`, the loader `loadmeta`
and the reload loop of `main`.

The Go standard library is not part of the repository. What the program
uses of it (`ioutil.ReadFile`, `json.Unmarshal`, `regexp.Compile`,
`(*Regexp).MatchString`, `path.Join`) is collected in the structure `Env`
and every general theorem holds for all of its instances.
-/

namespace Fakegoget

/-! ## Data model -/

/-- The struct `Meta` (main.go 18-29). `R` is the type of compiled regular
expressions; `re` is the unexported pointer field (`none` is `nil`). -/
structure Meta (R : Type) where
  re : Option R
  Pattern : String
  Pkg : String
  VCS : String
  Repo : String
  Source : String
  SourceDir : String
  SourceLine : String
  Doc : String
  Body : String
deriving DecidableEq, Repr

/-- The standard-library operations the program calls.
`readFile` is `ioutil.ReadFile`, `unmarshal` is `json.Unmarshal` into a
`[]*Meta` (an element `none` is a `nil` pointer, decoded from JSON `null`),
`compile` is `regexp.Compile`, `matchString` is `(*Regexp).MatchString` and
`join` is `path.Join` on two elements. -/
structure Env (R : Type) where
  readFile : String → Except String String
  unmarshal : String → Except String (List (Option (Meta R)))
  compile : String → Except String R
  matchString : R → String → Bool
  join : String → String → String

/-- How a Go call ends: a normal return with a value, a normal return with a
non-nil `error`, or a run-time panic. -/
inductive Outcome (α : Type) where
  | ok (a : α)
  | error (e : String)
  | panic (msg : String)
deriving DecidableEq, Repr

/-- The Go map `map[string]*Meta` as an association list. Go leaves the
iteration order of a map unspecified, so the position of an entry in the
list has no meaning: iteration takes its order as a separate argument
(see `RangeOrder`). -/
abbrev Table (R : Type) := List (String × Meta R)

/-- Map read `m[k]`; `none` is the zero value `nil`. -/
def Table.get {R : Type} (m : Table R) (k : String) : Option (Meta R) :=
  match m with
  | [] => none
  | (k', v) :: rest => if k' = k then some v else Table.get rest k

/-- Map write `m[k] = v`: any earlier binding of `k` is replaced. -/
def Table.set {R : Type} (m : Table R) (k : String) (v : Meta R) : Table R :=
  (k, v) :: m.filter (fun e => !decide (e.1 = k))

/-- The keys of the map. -/
def Table.keys {R : Type} (m : Table R) : List String := m.map Prod.fst

/-- The values of the map. -/
def Table.values {R : Type} (m : Table R) : List (Meta R) := m.map Prod.snd

/-- The orders in which `for _, m := range pkgs.m` may visit the values of the
map: every permutation of them. -/
def RangeOrder {R : Type} (m : Table R) (order : List (Meta R)) : Prop :=
  List.Perm order (Table.values m)

instance {R : Type} [DecidableEq R] (m : Table R) (order : List (Meta R)) :
    Decidable (RangeOrder m order) := by
  unfold RangeOrder; infer_instance

/-! ## loadmeta (main.go 88-106) -/

/-- The loop of `loadmeta` (main.go 99-104) over the decoded slice `allmeta`,
with the map `meta` built so far. `m.Pattern` on a `nil` element panics;
`regexp.MustCompile` panics when `regexp.Compile` returns an error (the
panic is recorded with the text of that error). -/
def loadmetaLoop {R : Type} (env : Env R) :
    List (Option (Meta R)) → Table R → Outcome (Table R)
  | [], tbl => .ok tbl
  | none :: _, _ => .panic "invalid memory address or nil pointer dereference"
  | some m :: rest, tbl =>
    if m.Pattern ≠ "" then
      match env.compile m.Pattern with
      | .error e => .panic e
      | .ok re => loadmetaLoop env rest (tbl.set m.Pkg { m with re := some re })
    else
      loadmetaLoop env rest (tbl.set m.Pkg m)

/-- The function `loadmeta` (main.go 88-106). -/
def loadmeta {R : Type} (env : Env R) (filename : String) : Outcome (Table R) :=
  match env.readFile filename with
  | .error e => .error e
  | .ok data =>
    match env.unmarshal data with
    | .error e => .error e
    | .ok allmeta => loadmetaLoop env allmeta []

/-! ## getpkg (main.go 56-86) -/

/-- The part of `*http.Request` that `getpkg` reads: `Method`, `Host`,
`URL.Path` and the parsed form values (`r.Form`, a `url.Values`). -/
structure Request where
  Method : String
  Host : String
  Path : String
  Form : List (String × List String)
deriving DecidableEq, Repr

/-- The method `r.FormValue(key)`: the first value of `key`, or the empty
string when there is none. -/
def Request.FormValue (r : Request) (key : String) : String :=
  match r.Form.lookup key with
  | some (v :: _) => v
  | _ => ""

/-- What is written to the `http.ResponseWriter`: status code and body. -/
structure Response where
  status : Nat
  body : String
deriving DecidableEq, Repr

/-- The call `http.Error(w, msg, code)`: status `code`, body `msg` and a
newline. -/
def httpError (msg : String) (code : Nat) : Response :=
  { status := code, body := msg ++ "\n" }

/-- The template `metatpl` (main.go 31-49) executed on a record. The package
is `text/template`, so fields are inserted without escaping; an action
opened with a minus sign trims the white space before it; `if` on a string
tests that it is non-empty. -/
def metatpl {R : Type} (m : Meta R) : String :=
  "<!DOCTYPE html>\n<html>\n<head>\n" ++
  "<meta http-equiv=\"Content-Type\" content=\"text/html; charset=utf-8\"/>\n" ++
  "<meta name=\"go-import\" content=\"" ++ m.Pkg ++ " " ++ m.VCS ++ " " ++ m.Repo ++ "\"/>" ++
  (if m.Source ≠ "" then
    "\n<meta name=\"go-source\" content=\"" ++ m.Pkg ++ " " ++ m.Source ++ " " ++
      m.SourceDir ++ " " ++ m.SourceLine ++ "\"/>"
   else "") ++
  (if m.Doc ≠ "" then
    "\n<meta http-equiv=\"refresh\" content=\"0; url=" ++ m.Doc ++ "\"/>"
   else "") ++
  "\n</head>\n<body>" ++
  (if m.Body ≠ "" then "\n" ++ m.Body else "") ++
  "\n</body>\n</html>\n"

/-- The test `m.re != nil && m.re.MatchString(pkg)` (main.go 73). -/
def reMatch {R : Type} (env : Env R) (pkg : String) (m : Meta R) : Bool :=
  match m.re with
  | none => false
  | some re => env.matchString re pkg

/-- The loop of main.go 72-77 over the values of the map in the order
`order`: the first value that passes the test, `none` when the loop ends
without a `break`. -/
def scan {R : Type} (env : Env R) (pkg : String) : List (Meta R) → Option (Meta R)
  | [] => none
  | m :: rest => if reMatch env pkg m then some m else scan env pkg rest

/-- The critical section of `getpkg` (main.go 69-79): the value of `meta`
after it, for the table `m`, the iteration order `order` and the path
`pkg`. -/
def lookup {R : Type} (env : Env R) (m : Table R) (order : List (Meta R))
    (pkg : String) : Option (Meta R) :=
  match Table.get m pkg with
  | some x => some x
  | none => scan env pkg order

/-- The handler `getpkg` (main.go 56-86) on the table `m` with the iteration
order `order`. The log line is not modelled. -/
def getpkg {R : Type} (env : Env R) (m : Table R) (order : List (Meta R))
    (r : Request) : Response :=
  if r.Method ≠ "GET" then
    httpError "Method Not Allowed" 405
  else if r.FormValue "go-get" ≠ "1" then
    httpError "Bad Request" 400
  else
    match lookup env m order (env.join r.Host r.Path) with
    | none => httpError "Not Found" 404
    | some x => { status := 200, body := metatpl x }

/-! ## The reload loop of main (main.go 134-143) -/

/-- The process after a signal was handled: still serving a table, or
terminated by a panic in the main goroutine. -/
inductive Proc (R : Type) where
  | serving (m : Table R)
  | crashed (msg : String)
deriving DecidableEq, Repr

/-- One iteration of `for range signals` (main.go 134-143) with the table
`m` in `pkgs.m`. -/
def reload {R : Type} (env : Env R) (config : String) (m : Table R) : Proc R :=
  match loadmeta env config with
  | .error _ => .serving m
  | .ok tbl => .serving tbl
  | .panic msg => .crashed msg

/-! ## An instance of the library interface, for evaluating the program -/

/-- Boolean test that `p` is a prefix of `s`. -/
def isPrefixB : List Char → List Char → Bool
  | [], _ => true
  | _ :: _, [] => false
  | a :: p, b :: s => a = b && isPrefixB p s

/-- Boolean test that `p` occurs in `s` as a contiguous block. -/
def isInfixB (p : List Char) : List Char → Bool
  | [] => p.isEmpty
  | c :: s => isPrefixB p (c :: s) || isInfixB p s

/-- Characters that stand for themselves in a regular expression. -/
def literalChar (c : Char) : Bool :=
  c.isAlphanum || c = '/' || c = '-' || c = '_'

/-- The pieces of a path between its slashes. -/
def splitSlash : List Char → List (List Char)
  | [] => [[]]
  | c :: cs =>
    match splitSlash cs with
    | [] => [[]]
    | seg :: segs => if c = '/' then [] :: seg :: segs else (c :: seg) :: segs

/-- One element of a path in `path.Clean`; `stack` holds the elements kept so
far, last first. Empty elements and `.` are dropped, `..` removes the
element before it, is dropped at the root, and is kept at the start of a
relative path. -/
def cleanStep (rooted : Bool) (stack : List (List Char)) (seg : List Char) :
    List (List Char) :=
  if seg = [] ∨ seg = ['.'] then stack
  else if seg = ['.', '.'] then
    match stack with
    | [] => if rooted then [] else [seg]
    | top :: rest => if top = ['.', '.'] then seg :: stack else rest
  else seg :: stack

/-- The elements joined by single slashes. -/
def joinSlash : List (List Char) → List Char
  | [] => []
  | [seg] => seg
  | seg :: rest => seg ++ '/' :: joinSlash rest

/-- The function `path.Clean` of Go's standard library. -/
def pathClean (p : String) : String :=
  if p = "" then "."
  else
    let rooted := isPrefixB ['/'] p.data
    let out := (if rooted then ['/'] else []) ++
      joinSlash ((splitSlash p.data).foldl (cleanStep rooted) []).reverse
    if out = [] then "." else String.mk out

/-- The function `path.Join` of Go's standard library on two elements:
the non-empty elements joined by a slash, then cleaned; the empty string when
both are empty. -/
def pathJoin (a b : String) : String :=
  if a = "" ∧ b = "" then ""
  else if a = "" then pathClean b
  else if b = "" then pathClean a
  else pathClean (a ++ "/" ++ b)

/-- An instance of `Env` given by a finite file system `files` (name and
content) and a finite table `decoded` giving what `json.Unmarshal` makes of a
content; a file not listed cannot be read and a content not listed does not
decode. A compiled expression is its source text. The patterns made of
letters, digits, `/`, `-` and `_` compile and match the strings that contain
them, as they do in `regexp`; every other pattern is rejected, which is
what `regexp.Compile` does with the pattern `(` but not with every such
pattern: the instance is used at patterns of the first kind and at `(`
only. -/
def demoEnv (files : List (String × String))
    (decoded : List (String × List (Option (Meta String)))) : Env String where
  readFile name :=
    match files.lookup name with
    | some data => .ok data
    | none => .error ("open " ++ name ++ ": no such file or directory")
  unmarshal data :=
    match decoded.lookup data with
    | some l => .ok l
    | none => .error "invalid character"
  compile p :=
    if p.data.all literalChar then .ok p
    else .error "error parsing regexp"
  matchString re s := isInfixB re.data s.data
  join := pathJoin

/-- A record with the given pattern, key, VCS and repository and every other
field empty, as decoded from a JSON object that has these four members. -/
def mkMeta (pattern pkg vcs repo : String) : Meta String :=
  { re := none, Pattern := pattern, Pkg := pkg, VCS := vcs, Repo := repo,
    Source := "", SourceDir := "", SourceLine := "", Doc := "", Body := "" }

/-! ## The records a load leaves in the table -/

/-- The record `m` after main.go 100-102 ran on it without a panic: `re` is
the compiled `Pattern` when `Pattern` is non-empty and is left alone
otherwise. The pointer stored in the map is the pointer that was decoded, so
this is the same record, seen after the load. -/
def compiled {R : Type} (env : Env R) (m : Meta R) : Meta R :=
  if m.Pattern ≠ "" then
    match env.compile m.Pattern with
    | .ok re => { m with re := some re }
    | .error _ => m
  else m

/-- The table after the loop of `loadmeta` (main.go 99-104) ran over the
records `cfg` from the map `tbl` without a panic: one map write a record. -/
def built {R : Type} (env : Env R) (cfg : List (Meta R)) (tbl : Table R) : Table R :=
  cfg.foldl (fun t m => Table.set t m.Pkg (compiled env m)) tbl

/-- The last record in file order that carries the key `k`. -/
def lastWithKey {R : Type} (cfg : List (Meta R)) (k : String) : Option (Meta R) :=
  cfg.reverse.find? (fun m => decide (m.Pkg = k))

/-- The first record in file order whose non-empty pattern compiles to an
expression that matches `pkg`. -/
def firstPatternMatch {R : Type} (env : Env R) (cfg : List (Meta R)) (pkg : String) :
    Option (Meta R) :=
  cfg.find? (fun m => decide (m.Pattern ≠ "") && reMatch env pkg (compiled env m))

/-- The string `page` contains the string `part`. -/
def Contains (page part : String) : Prop :=
  ∃ pre suf : String, page = pre ++ part ++ suf

/-- The map invariant of a loaded table: keys are distinct and every record
is stored under its own `Pkg`. -/
def Table.WF {R : Type} (m : Table R) : Prop :=
  m.keys.Nodup ∧ ∀ e ∈ m, e.2.Pkg = e.1

/-! ## Concrete configuration files -/

/-- The configuration of the scenario: one record without a pattern. -/
def scenarioJSON : String :=
  "[\x7b\"pkg\":\"example.com/foo\",\"vcs\":\"git\",\"repo\":\"https://github.com/x/foo\"\x7d]"

/-- The record of `scenarioJSON`. -/
def recFoo : Meta String := mkMeta "" "example.com/foo" "git" "https://github.com/x/foo"

/-- Two records with distinct keys and the same pattern. -/
def twoJSON : String :=
  "[\x7b\"pattern\":\"example\",\"pkg\":\"example.com/a\",\"vcs\":\"git\",\"repo\":\"https://github.com/x/a\"\x7d," ++
  "\x7b\"pattern\":\"example\",\"pkg\":\"example.com/b\",\"vcs\":\"hg\",\"repo\":\"https://github.com/x/b\"\x7d]"

/-- The first record of `twoJSON`. -/
def recA : Meta String := mkMeta "example" "example.com/a" "git" "https://github.com/x/a"

/-- The second record of `twoJSON`. -/
def recB : Meta String := mkMeta "example" "example.com/b" "hg" "https://github.com/x/b"

/-- Three records, the first and the last with the same key. -/
def dupJSON : String :=
  "[\x7b\"pattern\":\"old\",\"pkg\":\"example.com/a\",\"vcs\":\"git\",\"repo\":\"https://github.com/x/old\"\x7d," ++
  "\x7b\"pattern\":\"example\",\"pkg\":\"example.com/b\",\"vcs\":\"hg\",\"repo\":\"https://github.com/x/b\"\x7d," ++
  "\x7b\"pkg\":\"example.com/a\",\"vcs\":\"git\",\"repo\":\"https://github.com/x/new\"\x7d]"

/-- The first record of `dupJSON`. -/
def recOld : Meta String := mkMeta "old" "example.com/a" "git" "https://github.com/x/old"

/-- The last record of `dupJSON`. -/
def recNew : Meta String := mkMeta "" "example.com/a" "git" "https://github.com/x/new"

/-- One record whose pattern is an opening parenthesis, which is not a
regular expression. -/
def badJSON : String :=
  "[\x7b\"pattern\":\"(\",\"pkg\":\"example.com/a\",\"vcs\":\"git\",\"repo\":\"https://github.com/x/a\"\x7d]"

/-- The record of `badJSON`. -/
def recBad : Meta String := mkMeta "(" "example.com/a" "git" "https://github.com/x/a"

/-- A record with both a documentation URL and a body. -/
def recDocBody : Meta String :=
  { re := none, Pattern := "", Pkg := "example.com/foo", VCS := "git",
    Repo := "https://github.com/x/foo", Source := "", SourceDir := "", SourceLine := "",
    Doc := "https://pkg.go.dev/example.com/foo", Body := "<p>moved</p>" }

/-- The library instance with five files: the four configurations above and
`broken.json`, whose content is not JSON. The file `missing.json` does not
exist. -/
def demo : Env String :=
  demoEnv
    [("config.json", scenarioJSON), ("two.json", twoJSON), ("dup.json", dupJSON),
     ("bad.json", badJSON), ("broken.json", "[")]
    [(scenarioJSON, [some recFoo]), (twoJSON, [some recA, some recB]),
     (dupJSON, [some recOld, some recB, some recNew]), (badJSON, [some recBad])]

/-- The first record of `twoJSON` after the load. -/
def loadedA : Meta String := { recA with re := some "example" }

/-- The second record of `twoJSON` after the load. -/
def loadedB : Meta String := { recB with re := some "example" }

/-- The map that `loadmeta` builds from `twoJSON`. -/
def tblTwo : Table String := [("example.com/b", loadedB), ("example.com/a", loadedA)]

/-- The map that `loadmeta` builds from `dupJSON`: the first record of the
file is no longer in it. -/
def tblDup : Table String := [("example.com/a", recNew), ("example.com/b", loadedB)]

/-- The request `GET https://example.com/foo?go-get=1`. -/
def reqFoo : Request :=
  { Method := "GET", Host := "example.com", Path := "/foo", Form := [("go-get", ["1"])] }

/-! ## Lemmas on the table -/

theorem Table.get_filter_ne {R : Type} (m : Table R) (k k' : String) :
    Table.get (m.filter (fun e => !decide (e.1 = k))) k' =
      if k' = k then none else Table.get m k' := by
  induction m with
  | nil => simp [Table.get]
  | cons e rest ih =>
    obtain ⟨a, v⟩ := e
    by_cases ha : a = k
    · subst ha
      by_cases hk : k' = a
      · subst hk; simp [Table.get, ih]
      · have hk2 : ¬ a = k' := fun h => hk h.symm
        simp [Table.get, ih, hk, hk2]
    · by_cases hk : k' = k
      · subst hk
        simp [List.filter, ha, Table.get, ih]
      · simp [List.filter, ha, Table.get, ih, hk]

theorem Table.get_set {R : Type} (m : Table R) (k : String) (v : Meta R) (k' : String) :
    Table.get (Table.set m k v) k' = if k = k' then some v else Table.get m k' := by
  unfold Table.set
  by_cases h : k = k'
  · simp [Table.get, h]
  · have h2 : ¬ k' = k := fun e => h e.symm
    simp [Table.get, h, Table.get_filter_ne, h2]

theorem Table.get_eq_none_iff {R : Type} (m : Table R) (k : String) :
    Table.get m k = none ↔ k ∉ Table.keys m := by
  induction m with
  | nil => simp [Table.get, Table.keys]
  | cons e rest ih =>
    obtain ⟨a, v⟩ := e
    by_cases h : a = k
    · simp [Table.get, Table.keys, h]
    · have h2 : ¬ k = a := fun e => h e.symm
      simp only [Table.keys] at ih
      simp [Table.get, Table.keys, h, h2, ih]

theorem Table.get_of_mem {R : Type} (m : Table R) (hnd : (Table.keys m).Nodup)
    (k : String) (v : Meta R) (hmem : (k, v) ∈ m) : Table.get m k = some v := by
  induction m with
  | nil => cases hmem
  | cons e rest ih =>
    obtain ⟨a, w⟩ := e
    simp only [Table.keys, List.map_cons, List.nodup_cons] at hnd
    rcases List.mem_cons.1 hmem with h | h
    · cases h; simp [Table.get]
    · have hne : ¬ a = k := by
        intro hak
        apply hnd.1
        rw [hak]
        exact List.mem_map_of_mem Prod.fst h
      simp [Table.get, hne]
      exact ih hnd.2 h

theorem Table.mem_of_get {R : Type} (m : Table R) (k : String) (v : Meta R)
    (h : Table.get m k = some v) : (k, v) ∈ m := by
  induction m with
  | nil => simp [Table.get] at h
  | cons e rest ih =>
    obtain ⟨a, w⟩ := e
    by_cases hak : a = k
    · simp [Table.get, hak] at h
      simp [hak, h]
    · simp [Table.get, hak] at h
      exact List.mem_cons_of_mem _ (ih h)

theorem Table.WF_nil {R : Type} : Table.WF ([] : Table R) := by
  simp [Table.WF, Table.keys]

theorem Table.WF_set {R : Type} (m : Table R) (k : String) (v : Meta R)
    (hm : Table.WF m) (hv : v.Pkg = k) : Table.WF (Table.set m k v) := by
  obtain ⟨hnd, hkey⟩ := hm
  refine ⟨?_, ?_⟩
  · simp only [Table.set, Table.keys, List.map_cons, List.nodup_cons]
    refine ⟨?_, ?_⟩
    · intro hmem
      obtain ⟨e, he, hek⟩ := List.mem_map.1 hmem
      have := (List.mem_filter.1 he).2
      simp at this
      exact this hek
    · exact List.Nodup.sublist (List.Sublist.map _ (List.filter_sublist _)) hnd
  · intro e he
    simp only [Table.set] at he
    rcases List.mem_cons.1 he with h | h
    · subst h; exact hv
    · exact hkey e (List.mem_filter.1 h).1

/-! ## Lemmas on the load -/

theorem compiled_Pkg {R : Type} (env : Env R) (m : Meta R) :
    (compiled env m).Pkg = m.Pkg := by
  unfold compiled
  split
  · split <;> rfl
  · rfl

theorem loadmetaLoop_ok {R : Type} (env : Env R) (cfg : List (Meta R))
    (hvalid : ∀ m ∈ cfg, m.Pattern ≠ "" → ∃ re, env.compile m.Pattern = .ok re)
    (tbl : Table R) :
    loadmetaLoop env (cfg.map some) tbl = .ok (built env cfg tbl) := by
  induction cfg generalizing tbl with
  | nil => simp [loadmetaLoop, built]
  | cons m rest ih =>
    have hrest : ∀ x ∈ rest, x.Pattern ≠ "" → ∃ re, env.compile x.Pattern = .ok re :=
      fun x hx => hvalid x (List.mem_cons_of_mem _ hx)
    by_cases hp : m.Pattern = ""
    · simp [loadmetaLoop, built, compiled, hp]
      simpa [built, compiled, hp] using ih hrest (Table.set tbl m.Pkg m)
    · obtain ⟨re, hre⟩ := hvalid m (List.mem_cons_self _ _) hp
      simp [loadmetaLoop, built, compiled, hp, hre]
      simpa [built, compiled, hp, hre] using
        ih hrest (Table.set tbl m.Pkg { m with re := some re })

theorem loadmeta_ok {R : Type} (env : Env R) (filename data : String)
    (cfg : List (Meta R))
    (hread : env.readFile filename = .ok data)
    (hdec : env.unmarshal data = .ok (cfg.map some))
    (hvalid : ∀ m ∈ cfg, m.Pattern ≠ "" → ∃ re, env.compile m.Pattern = .ok re) :
    loadmeta env filename = .ok (built env cfg []) := by
  simp [loadmeta, hread, hdec, loadmetaLoop_ok env cfg hvalid]

theorem built_append {R : Type} (env : Env R) (cfg : List (Meta R)) (m : Meta R)
    (tbl : Table R) :
    built env (cfg ++ [m]) tbl = Table.set (built env cfg tbl) m.Pkg (compiled env m) := by
  simp [built, List.foldl_append]

theorem lastWithKey_append {R : Type} (cfg : List (Meta R)) (m : Meta R) (k : String) :
    lastWithKey (cfg ++ [m]) k = if m.Pkg = k then some m else lastWithKey cfg k := by
  simp [lastWithKey, List.find?_cons]
  split <;> simp_all

theorem built_get {R : Type} (env : Env R) (cfg : List (Meta R)) (k : String) :
    Table.get (built env cfg []) k = (lastWithKey cfg k).map (compiled env) := by
  induction cfg using List.reverseRecOn with
  | nil => simp [built, lastWithKey, Table.get]
  | append_singleton init m ih =>
    rw [built_append, Table.get_set, lastWithKey_append, ih]
    split <;> simp

theorem built_WF {R : Type} (env : Env R) (cfg : List (Meta R)) :
    Table.WF (built env cfg []) := by
  induction cfg using List.reverseRecOn with
  | nil => simpa [built] using Table.WF_nil
  | append_singleton init m ih =>
    rw [built_append]
    exact Table.WF_set _ _ _ ih (compiled_Pkg env m)

theorem lastWithKey_mem {R : Type} (cfg : List (Meta R)) (k : String) (m : Meta R)
    (h : lastWithKey cfg k = some m) : m ∈ cfg ∧ m.Pkg = k := by
  unfold lastWithKey at h
  have h1 := List.mem_of_find?_eq_some h
  have h2 := List.find?_some h
  exact ⟨List.mem_reverse.1 h1, by simpa using h2⟩

theorem lastWithKey_eq_none {R : Type} (cfg : List (Meta R)) (k : String) :
    lastWithKey cfg k = none ↔ k ∉ cfg.map Meta.Pkg := by
  simp [lastWithKey, List.find?_eq_none]

theorem lastWithKey_of_nodup {R : Type} (cfg : List (Meta R))
    (hnd : (cfg.map Meta.Pkg).Nodup) (r : Meta R) (hr : r ∈ cfg) :
    lastWithKey cfg r.Pkg = some r := by
  cases h : lastWithKey cfg r.Pkg with
  | none =>
    exact absurd (List.mem_map_of_mem Meta.Pkg hr) ((lastWithKey_eq_none cfg r.Pkg).1 h)
  | some x =>
    obtain ⟨hx, hk⟩ := lastWithKey_mem cfg r.Pkg x h
    rw [List.inj_on_of_nodup_map hnd hx hr hk]

/-! ## Lemmas on the lookup -/

theorem scan_eq_find {R : Type} (env : Env R) (pkg : String) (l : List (Meta R)) :
    scan env pkg l = l.find? (reMatch env pkg) := by
  induction l with
  | nil => rfl
  | cons m rest ih =>
    by_cases h : reMatch env pkg m = true
    · simp [scan, List.find?_cons, h]
    · simp [scan, List.find?_cons, h, ih]

theorem scan_none {R : Type} (env : Env R) (pkg : String) (l : List (Meta R))
    (h : ∀ x ∈ l, reMatch env pkg x = false) : scan env pkg l = none := by
  rw [scan_eq_find, List.find?_eq_none]
  intro x hx
  simp [h x hx]

theorem scan_some {R : Type} (env : Env R) (pkg : String) (l : List (Meta R))
    (x : Meta R) (h : scan env pkg l = some x) : x ∈ l ∧ reMatch env pkg x = true := by
  rw [scan_eq_find] at h
  exact ⟨List.mem_of_find?_eq_some h, List.find?_some h⟩

theorem scan_exists {R : Type} (env : Env R) (pkg : String) (l : List (Meta R))
    (h : ∃ m ∈ l, reMatch env pkg m = true) : ∃ x, scan env pkg l = some x := by
  rw [scan_eq_find]
  cases hf : l.find? (reMatch env pkg) with
  | some x => exact ⟨x, rfl⟩
  | none =>
    obtain ⟨m, hm, hmatch⟩ := h
    have := List.find?_eq_none.1 hf m hm
    simp [hmatch] at this

theorem lookup_mem {R : Type} (env : Env R) (m : Table R) (order : List (Meta R))
    (pkg : String) (x : Meta R) (horder : RangeOrder m order)
    (h : lookup env m order pkg = some x) : x ∈ Table.values m := by
  unfold lookup at h
  cases hg : Table.get m pkg with
  | some y =>
    rw [hg] at h
    have hxy : y = x := Option.some.inj h
    rw [← hxy]
    exact List.mem_map_of_mem Prod.snd (Table.mem_of_get m pkg y hg)
  | none =>
    rw [hg] at h
    exact (List.Perm.mem_iff horder).1 (scan_some env pkg order x h).1

theorem Table.get_value {R : Type} (m : Table R) (hm : Table.WF m) (x : Meta R)
    (hx : x ∈ Table.values m) : Table.get m x.Pkg = some x := by
  obtain ⟨e, he, hex⟩ := List.mem_map.1 hx
  obtain ⟨k, v⟩ := e
  simp only at hex
  subst hex
  have hk : v.Pkg = k := hm.2 (k, v) he
  rw [hk]
  exact Table.get_of_mem m hm.1 k v he

set_option maxRecDepth 100000

/-! ## Exact lookup (C1) -/

/-- C1: for every configuration whose records have pairwise distinct `Pkg`
keys and valid patterns, and every record `r` of it, `loadmeta` returns a
table in which the lookup of `r.Pkg` gives `r` (as the load left it, with
its pattern compiled), in every iteration order of the map and whatever the
patterns of the records match. -/
theorem lookup_exact_key {R : Type} (env : Env R) (filename data : String)
    (cfg : List (Meta R))
    (hread : env.readFile filename = .ok data)
    (hdec : env.unmarshal data = .ok (cfg.map some))
    (hvalid : ∀ m ∈ cfg, m.Pattern ≠ "" → ∃ re, env.compile m.Pattern = .ok re)
    (hnd : (cfg.map Meta.Pkg).Nodup) (r : Meta R) (hr : r ∈ cfg) :
    ∃ tbl, loadmeta env filename = .ok tbl ∧
      ∀ order, lookup env tbl order r.Pkg = some (compiled env r) := by
  refine ⟨built env cfg [], loadmeta_ok env filename data cfg hread hdec hvalid, ?_⟩
  intro order
  simp [lookup, built_get, lastWithKey_of_nodup cfg hnd r hr]

/-- Witness of C1: in `two.json` both patterns match `example.com/b`, and the
lookup of `example.com/b` gives the second record. -/
theorem lookup_exact_key_witness :
    (List.map Meta.Pkg [recA, recB]).Nodup ∧ recB ∈ [recA, recB] ∧
    reMatch demo recB.Pkg (compiled demo recA) = true ∧
    ∃ tbl, loadmeta demo "two.json" = .ok tbl ∧
      ∀ order, lookup demo tbl order recB.Pkg = some (compiled demo recB) :=
  ⟨by decide, by decide, by decide,
   lookup_exact_key demo "two.json" twoJSON [recA, recB] (by rfl) (by rfl)
     (by intro m hm _
         simp only [List.mem_cons, List.mem_singleton, List.not_mem_nil, or_false] at hm
         rcases hm with rfl | rfl <;> exact ⟨_, rfl⟩)
     (by decide) recB (by decide)⟩

/-! ## Pattern lookup (C2) -/

/-- C2, as stated, fails. `two.json` has two records with distinct keys
and the same pattern; the path `example.com/c` is no key and is matched by
both patterns, the first record in file order that matches it is the first
record, and in the iteration order of the map that visits the second
record first the lookup gives the second record. In `dup.json` the only
record whose pattern matches `old.org/x` is the first one, which the last
record overwrites: the lookup finds nothing, in both iteration orders. -/
theorem lookup_pattern_not_file_order :
    (loadmeta demo "two.json" = .ok tblTwo ∧
     "example.com/c" ∉ List.map Meta.Pkg [recA, recB] ∧
     firstPatternMatch demo [recA, recB] "example.com/c" = some recA ∧
     RangeOrder tblTwo [loadedB, loadedA] ∧
     lookup demo tblTwo [loadedB, loadedA] "example.com/c" = some loadedB ∧
     loadedB.Pkg ≠ recA.Pkg) ∧
    (loadmeta demo "dup.json" = .ok tblDup ∧
     "old.org/x" ∉ List.map Meta.Pkg [recOld, recB, recNew] ∧
     firstPatternMatch demo [recOld, recB, recNew] "old.org/x" = some recOld ∧
     lookup demo tblDup [recNew, loadedB] "old.org/x" = none ∧
     lookup demo tblDup [loadedB, recNew] "old.org/x" = none) := by
  decide

/-- C2, amended: for every configuration with valid patterns and every path
that is no `Pkg` key and is matched by the compiled pattern of a record of
the table, the lookup gives a record of the table whose pattern matches the
path: the first one in the iteration order of the map. That record is the
load of a record of the file which is the last one carrying its key. -/
theorem lookup_pattern {R : Type} (env : Env R) (filename data : String)
    (cfg : List (Meta R))
    (hread : env.readFile filename = .ok data)
    (hdec : env.unmarshal data = .ok (cfg.map some))
    (hvalid : ∀ m ∈ cfg, m.Pattern ≠ "" → ∃ re, env.compile m.Pattern = .ok re)
    (pkg : String) (hkey : pkg ∉ cfg.map Meta.Pkg) :
    ∃ tbl, loadmeta env filename = .ok tbl ∧
      ∀ order, RangeOrder tbl order →
        (∃ m ∈ Table.values tbl, reMatch env pkg m = true) →
        ∃ x, lookup env tbl order pkg = some x ∧
          x ∈ Table.values tbl ∧ reMatch env pkg x = true ∧
          order.find? (reMatch env pkg) = some x ∧
          ∃ r ∈ cfg, lastWithKey cfg r.Pkg = some r ∧ x = compiled env r := by
  refine ⟨built env cfg [], loadmeta_ok env filename data cfg hread hdec hvalid, ?_⟩
  intro order horder hex
  have hnone : Table.get (built env cfg []) pkg = none := by
    rw [built_get, (lastWithKey_eq_none cfg pkg).2 hkey]; rfl
  obtain ⟨m, hm, hmatch⟩ := hex
  obtain ⟨x, hx⟩ := scan_exists env pkg order ⟨m, (List.Perm.mem_iff horder).2 hm, hmatch⟩
  have hlook : lookup env (built env cfg []) order pkg = some x := by
    simp [lookup, hnone, hx]
  have hxmem : x ∈ Table.values (built env cfg []) :=
    lookup_mem env _ order pkg x horder hlook
  refine ⟨x, hlook, hxmem, (scan_some env pkg order x hx).2, ?_, ?_⟩
  · rw [← scan_eq_find]; exact hx
  · have hget := Table.get_value _ (built_WF env cfg) x hxmem
    rw [built_get] at hget
    cases hl : lastWithKey cfg x.Pkg with
    | none => rw [hl] at hget; cases hget
    | some r =>
      rw [hl] at hget
      have hxr : compiled env r = x := Option.some.inj hget
      have hrk := (lastWithKey_mem cfg x.Pkg r hl).2
      refine ⟨r, (lastWithKey_mem cfg x.Pkg r hl).1, ?_, hxr.symm⟩
      rw [hrk]; exact hl

/-- Witness of the amended C2 on `two.json` and the path `example.com/c`, in
the iteration order that visits the second record first. -/
theorem lookup_pattern_witness :
    "example.com/c" ∉ List.map Meta.Pkg [recA, recB] ∧
    ∃ x, lookup demo (built demo [recA, recB] []) [compiled demo recB, compiled demo recA]
          "example.com/c" = some x ∧
      x ∈ Table.values (built demo [recA, recB] []) ∧
      reMatch demo "example.com/c" x = true ∧
      [compiled demo recB, compiled demo recA].find? (reMatch demo "example.com/c") = some x ∧
      ∃ r ∈ [recA, recB], lastWithKey [recA, recB] r.Pkg = some r ∧ x = compiled demo r := by
  obtain ⟨tbl, hload, h⟩ :=
    lookup_pattern demo "two.json" twoJSON [recA, recB] (by rfl) (by rfl)
      (by intro m hm _
          simp only [List.mem_cons, List.mem_singleton, List.not_mem_nil, or_false] at hm
          rcases hm with rfl | rfl <;> exact ⟨_, rfl⟩)
      "example.com/c" (by decide)
  have heval : loadmeta demo "two.json" = .ok (built demo [recA, recB] []) := by decide
  rw [heval] at hload
  have htbl : built demo [recA, recB] [] = tbl := Outcome.ok.inj hload
  subst htbl
  exact ⟨by decide, h _ (by decide) ⟨compiled demo recA, by decide, by decide⟩⟩

/-! ## The handler (C3, C6, C7, C8) -/

/-- C3: for every table and iteration order of it and every `GET` request
with `go-get=1` whose path `path.Join(r.Host, r.URL.Path)` is no key of the
table and is matched by no compiled pattern of a record of the table,
`getpkg` answers 404 with the body of `http.Error` and renders no page. -/
theorem getpkg_not_found {R : Type} (env : Env R) (m : Table R) (order : List (Meta R))
    (r : Request) (horder : RangeOrder m order)
    (hmethod : r.Method = "GET") (hget : r.FormValue "go-get" = "1")
    (hkey : env.join r.Host r.Path ∉ Table.keys m)
    (hpat : ∀ x ∈ Table.values m, reMatch env (env.join r.Host r.Path) x = false) :
    getpkg env m order r = { status := 404, body := "Not Found\n" } := by
  have hnone := (Table.get_eq_none_iff m (env.join r.Host r.Path)).2 hkey
  have hscan : scan env (env.join r.Host r.Path) order = none :=
    scan_none env _ order (fun x hx => hpat x ((List.Perm.mem_iff horder).1 hx))
  simp [getpkg, hmethod, hget, lookup, hnone, hscan, httpError]

/-- Witness of C3, the scenario: the request for `example.com/bar` on the
table of `config.json`, which has the key `example.com/foo` and no pattern. -/
theorem getpkg_not_found_witness :
    getpkg demo (built demo [recFoo] []) [recFoo]
      { Method := "GET", Host := "example.com", Path := "/bar", Form := [("go-get", ["1"])] }
      = { status := 404, body := "Not Found\n" } :=
  getpkg_not_found demo (built demo [recFoo] []) [recFoo]
    { Method := "GET", Host := "example.com", Path := "/bar", Form := [("go-get", ["1"])] }
    (by decide) (by decide) (by decide) (by decide) (by decide)

/-- C6: for every request whose method is not `GET`, `getpkg` answers 405,
whatever the form values, the path, the table and the iteration order. -/
theorem getpkg_method_not_allowed {R : Type} (env : Env R) (m : Table R)
    (order : List (Meta R)) (r : Request) (hmethod : r.Method ≠ "GET") :
    getpkg env m order r = { status := 405, body := "Method Not Allowed\n" } := by
  simp [getpkg, hmethod, httpError]

/-- Witness of C6: a `POST` of the scenario request, whose path has a record
and which carries `go-get=1`. -/
theorem getpkg_method_not_allowed_witness :
    getpkg demo (built demo [recFoo] []) [recFoo] { reqFoo with Method := "POST" }
      = { status := 405, body := "Method Not Allowed\n" } :=
  getpkg_method_not_allowed demo (built demo [recFoo] []) [recFoo]
    { reqFoo with Method := "POST" } (by decide)

/-- C7: for every `GET` request whose form value `go-get` is not `1` (it is
the empty string when the parameter is absent), `getpkg` answers 400,
whatever the path, the table and the iteration order. -/
theorem getpkg_bad_request {R : Type} (env : Env R) (m : Table R)
    (order : List (Meta R)) (r : Request) (hmethod : r.Method = "GET")
    (hget : r.FormValue "go-get" ≠ "1") :
    getpkg env m order r = { status := 400, body := "Bad Request\n" } := by
  simp [getpkg, hmethod, hget, httpError]

/-- Witness of C7: the scenario request without its query, whose path has a
record. -/
theorem getpkg_bad_request_witness :
    getpkg demo (built demo [recFoo] []) [recFoo] { reqFoo with Form := [] }
      = { status := 400, body := "Bad Request\n" } :=
  getpkg_bad_request demo (built demo [recFoo] []) [recFoo]
    { reqFoo with Form := [] } (by decide) (by decide)

theorem metatpl_importTag {R : Type} (m : Meta R) :
    Contains (metatpl m)
      ("\n<meta name=\"go-import\" content=\"" ++ m.Pkg ++ " " ++ m.VCS ++ " " ++ m.Repo ++
        "\"/>\n") := by
  have e0 : ("<!DOCTYPE html>\n<html>\n<head>\n" : String) ++
      "<meta http-equiv=\"Content-Type\" content=\"text/html; charset=utf-8\"/>\n" ++
      "<meta name=\"go-import\" content=\"" =
      "<!DOCTYPE html>\n<html>\n<head>\n<meta http-equiv=\"Content-Type\" content=\"text/html; charset=utf-8\"/>" ++
      "\n<meta name=\"go-import\" content=\"" := by
    decide
  have e1 : ("\n<meta name=\"go-source\" content=\"" : String) =
      "\n" ++ "<meta name=\"go-source\" content=\"" := by decide
  have e2 : ("\n<meta http-equiv=\"refresh\" content=\"0; url=" : String) =
      "\n" ++ "<meta http-equiv=\"refresh\" content=\"0; url=" := by decide
  have e3 : ("\n</head>\n<body>" : String) = "\n" ++ "</head>\n<body>" := by decide
  have e4 : ("\"/>\n" : String) = "\"/>" ++ "\n" := by decide
  unfold metatpl Contains
  rw [e0, e4]
  by_cases hs : m.Source = ""
  · by_cases hd : m.Doc = ""
    · refine ⟨"<!DOCTYPE html>\n<html>\n<head>\n<meta http-equiv=\"Content-Type\" content=\"text/html; charset=utf-8\"/>",
        "</head>\n<body>" ++ (if m.Body ≠ "" then "\n" ++ m.Body else "") ++
        "\n</body>\n</html>\n", ?_⟩
      simp only [hs, hd, ne_eq, not_true_eq_false, if_false, e3, String.append_assoc,
        String.append_empty]
    · refine ⟨"<!DOCTYPE html>\n<html>\n<head>\n<meta http-equiv=\"Content-Type\" content=\"text/html; charset=utf-8\"/>",
        "<meta http-equiv=\"refresh\" content=\"0; url=" ++ m.Doc ++ "\"/>" ++
        "\n</head>\n<body>" ++ (if m.Body ≠ "" then "\n" ++ m.Body else "") ++
        "\n</body>\n</html>\n", ?_⟩
      simp only [hs, hd, ne_eq, not_true_eq_false, not_false_eq_true, if_false, if_true, e2,
        String.append_assoc, String.append_empty]
  · refine ⟨"<!DOCTYPE html>\n<html>\n<head>\n<meta http-equiv=\"Content-Type\" content=\"text/html; charset=utf-8\"/>",
        "<meta name=\"go-source\" content=\"" ++ m.Pkg ++ " " ++ m.Source ++ " " ++
        m.SourceDir ++ " " ++ m.SourceLine ++ "\"/>" ++
        (if m.Doc ≠ "" then
          "\n<meta http-equiv=\"refresh\" content=\"0; url=" ++ m.Doc ++ "\"/>" else "") ++
        "\n</head>\n<body>" ++ (if m.Body ≠ "" then "\n" ++ m.Body else "") ++
        "\n</body>\n</html>\n", ?_⟩
    simp only [hs, ne_eq, not_false_eq_true, if_true, e1, String.append_assoc]

/-- C8: for every table, iteration order and `GET` request with `go-get=1`
whose path `path.Join(r.Host, r.URL.Path)` resolves to the record `x`, the
answer of `getpkg` has status 200 and its body contains, as a line, the tag
`<meta name="go-import" content="P V R"/>` with `P`, `V`, `R` the fields
`Pkg`, `VCS`, `Repo` of `x`, verbatim and separated by single spaces. -/
theorem getpkg_found {R : Type} (env : Env R) (m : Table R) (order : List (Meta R))
    (r : Request) (x : Meta R) (hmethod : r.Method = "GET")
    (hget : r.FormValue "go-get" = "1")
    (hres : lookup env m order (env.join r.Host r.Path) = some x) :
    (getpkg env m order r).status = 200 ∧
    Contains (getpkg env m order r).body
      ("\n<meta name=\"go-import\" content=\"" ++ x.Pkg ++ " " ++ x.VCS ++ " " ++ x.Repo ++
        "\"/>\n") := by
  have hresp : getpkg env m order r = { status := 200, body := metatpl x } := by
    simp [getpkg, hmethod, hget, hres]
  rw [hresp]
  exact ⟨rfl, metatpl_importTag x⟩

/-- Witness of C8, the scenario: on the table of `config.json` the request
`GET https://example.com/foo?go-get=1` has the path `example.com/foo` and is
answered 200 with the import tag of the record. -/
theorem getpkg_found_witness :
    demo.join reqFoo.Host reqFoo.Path = "example.com/foo" ∧
    (getpkg demo (built demo [recFoo] []) [recFoo] reqFoo).status = 200 ∧
    Contains (getpkg demo (built demo [recFoo] []) [recFoo] reqFoo).body
      "\n<meta name=\"go-import\" content=\"example.com/foo git https://github.com/x/foo\"/>\n" :=
  ⟨by decide,
   getpkg_found demo (built demo [recFoo] []) [recFoo] reqFoo recFoo
     (by decide) (by decide) (by decide)⟩

/-! ## The body and the redirect (C9) -/

/-- C9, as stated, fails: the page of a record with a non-empty `Doc` and a
non-empty `Body` carries the refresh redirect and the body. -/
theorem metatpl_doc_and_body :
    recDocBody.Doc ≠ "" ∧ recDocBody.Body = "<p>moved</p>" ∧
    metatpl recDocBody =
      "<!DOCTYPE html>\n<html>\n<head>\n" ++
      "<meta http-equiv=\"Content-Type\" content=\"text/html; charset=utf-8\"/>\n" ++
      "<meta name=\"go-import\" content=\"example.com/foo git https://github.com/x/foo\"/>\n" ++
      "<meta http-equiv=\"refresh\" content=\"0; url=https://pkg.go.dev/example.com/foo\"/>\n" ++
      "</head>\n<body>\n<p>moved</p>\n</body>\n</html>\n" := by
  decide

/-- C9, amended: the page of every record contains its `Body`, verbatim
between the lines `<body>` and `</body>`, whenever `Body` is non-empty,
whether or not `Doc` is empty; with an empty `Body` nothing stands between
these lines; and with a non-empty `Doc` the page carries the refresh
redirect to `Doc` as the last line of the head. -/
theorem metatpl_body {R : Type} (m : Meta R) :
    (m.Body ≠ "" → Contains (metatpl m) ("\n<body>\n" ++ m.Body ++ "\n</body>\n")) ∧
    (m.Body = "" → Contains (metatpl m) "\n<body>\n</body>\n") ∧
    (m.Doc ≠ "" → Contains (metatpl m)
      ("\n<meta http-equiv=\"refresh\" content=\"0; url=" ++ m.Doc ++ "\"/>\n</head>\n")) := by
  have f1 : ("\n</head>\n<body>" : String) = "\n</head>" ++ "\n<body>" := by decide
  have f2 : ("\n<body>\n" : String) = "\n<body>" ++ "\n" := by decide
  have f3 : ("\n</body>\n</html>\n" : String) = "\n</body>\n" ++ "</html>\n" := by decide
  have f4 : ("\n<body>\n</body>\n" : String) = "\n<body>" ++ "\n</body>\n" := by decide
  have f5 : ("\"/>\n</head>\n" : String) = "\"/>" ++ "\n</head>\n" := by decide
  have f6 : ("\n</head>\n<body>" : String) = "\n</head>\n" ++ "<body>" := by decide
  refine ⟨?_, ?_, ?_⟩
  · intro hb
    obtain ⟨X, hX⟩ : ∃ X, metatpl m = X ++ "\n</head>\n<body>" ++
        (if m.Body ≠ "" then "\n" ++ m.Body else "") ++ "\n</body>\n</html>\n" := ⟨_, rfl⟩
    refine ⟨X ++ "\n</head>", "</html>\n", ?_⟩
    rw [hX, f1, f2, f3]
    simp only [hb, ne_eq, not_false_eq_true, if_true, String.append_assoc]
  · intro hb
    obtain ⟨X, hX⟩ : ∃ X, metatpl m = X ++ "\n</head>\n<body>" ++
        (if m.Body ≠ "" then "\n" ++ m.Body else "") ++ "\n</body>\n</html>\n" := ⟨_, rfl⟩
    refine ⟨X ++ "\n</head>", "</html>\n", ?_⟩
    rw [hX, f1, f4, f3]
    simp only [hb, ne_eq, not_true_eq_false, if_false, String.append_assoc,
      String.append_empty]
  · intro hd
    obtain ⟨Y, hY⟩ : ∃ Y, metatpl m = Y ++
        (if m.Doc ≠ "" then
          "\n<meta http-equiv=\"refresh\" content=\"0; url=" ++ m.Doc ++ "\"/>" else "") ++
        "\n</head>\n<body>" ++
        (if m.Body ≠ "" then "\n" ++ m.Body else "") ++ "\n</body>\n</html>\n" := ⟨_, rfl⟩
    refine ⟨Y, "<body>" ++ (if m.Body ≠ "" then "\n" ++ m.Body else "") ++
      "\n</body>\n</html>\n", ?_⟩
    rw [hY, f5, f6]
    simp only [hd, ne_eq, not_false_eq_true, if_true, String.append_assoc]

/-! ## Duplicate keys (C10) -/

/-- C10: for every configuration that decodes and has valid patterns,
`loadmeta` returns a table that maps every key to the last record in file
order carrying it (as the load left it), whose keys are exactly the `Pkg`
values of the file, each once, and from which every lookup, exact or by
pattern and in every iteration order, gives a record that is the last
one of the file carrying its key: an overwritten record is not returned. -/
theorem loadmeta_table {R : Type} (env : Env R) (filename data : String)
    (cfg : List (Meta R))
    (hread : env.readFile filename = .ok data)
    (hdec : env.unmarshal data = .ok (cfg.map some))
    (hvalid : ∀ m ∈ cfg, m.Pattern ≠ "" → ∃ re, env.compile m.Pattern = .ok re) :
    ∃ tbl, loadmeta env filename = .ok tbl ∧
      (∀ k, Table.get tbl k = (lastWithKey cfg k).map (compiled env)) ∧
      (∀ k, k ∈ Table.keys tbl ↔ k ∈ cfg.map Meta.Pkg) ∧
      (Table.keys tbl).Nodup ∧
      (∀ order pkg x, RangeOrder tbl order → lookup env tbl order pkg = some x →
        (lastWithKey cfg x.Pkg).map (compiled env) = some x) := by
  refine ⟨built env cfg [], loadmeta_ok env filename data cfg hread hdec hvalid,
    built_get env cfg, ?_, (built_WF env cfg).1, ?_⟩
  · intro k
    have h1 := Table.get_eq_none_iff (built env cfg []) k
    have h2 := lastWithKey_eq_none cfg k
    rw [built_get] at h1
    constructor
    · intro hk
      by_contra hn
      have := h2.2 hn
      rw [this] at h1
      exact (h1.1 rfl) hk
    · intro hk
      by_contra hn
      have hnone := h1.2 hn
      cases hl : lastWithKey cfg k with
      | none => exact (h2.1 hl) hk
      | some y => rw [hl] at hnone; cases hnone
  · intro order pkg x horder hlook
    rw [← built_get]
    exact Table.get_value _ (built_WF env cfg) x (lookup_mem env _ order pkg x horder hlook)

/-- Witness of C10 on `dup.json`, whose first and last records carry the key
`example.com/a`: the last one is the one in force. -/
theorem loadmeta_table_witness :
    lastWithKey [recOld, recB, recNew] "example.com/a" = some recNew ∧
    ∃ tbl, loadmeta demo "dup.json" = .ok tbl ∧
      (∀ k, Table.get tbl k = (lastWithKey [recOld, recB, recNew] k).map (compiled demo)) ∧
      (∀ k, k ∈ Table.keys tbl ↔ k ∈ List.map Meta.Pkg [recOld, recB, recNew]) ∧
      (Table.keys tbl).Nodup ∧
      (∀ order pkg x, RangeOrder tbl order → lookup demo tbl order pkg = some x →
        (lastWithKey [recOld, recB, recNew] x.Pkg).map (compiled demo) = some x) :=
  ⟨by decide,
   loadmeta_table demo "dup.json" dupJSON [recOld, recB, recNew] (by rfl) (by rfl)
     (by intro m hm _
         simp only [List.mem_cons, List.mem_singleton, List.not_mem_nil, or_false] at hm
         rcases hm with rfl | rfl | rfl
         · exact ⟨_, rfl⟩
         · exact ⟨_, rfl⟩
         · exact ⟨"", rfl⟩)⟩

/-! ## Invalid patterns (C4, C5) -/

/-- Once the file is read and decoded, `loadmeta` never returns an error:
the loop ends with a table or with a panic. -/
theorem loadmetaLoop_ne_error {R : Type} (env : Env R)
    (allmeta : List (Option (Meta R))) (tbl : Table R) (e : String) :
    loadmetaLoop env allmeta tbl ≠ .error e := by
  induction allmeta generalizing tbl with
  | nil => simp [loadmetaLoop]
  | cons a rest ih =>
    cases a with
    | none => simp [loadmetaLoop]
    | some m =>
      by_cases hp : m.Pattern = ""
      · simpa [loadmetaLoop, hp] using ih _
      · cases hc : env.compile m.Pattern with
        | error msg => simp [loadmetaLoop, hp, hc]
        | ok re => simpa [loadmetaLoop, hp, hc] using ih _

/-- A record with a non-empty pattern that does not compile, after records
that load, makes `loadmeta` panic. -/
theorem loadmeta_invalid_pattern {R : Type} (env : Env R) (filename data : String)
    (cfg : List (Meta R)) (bad : Meta R) (rest : List (Option (Meta R))) (msg : String)
    (hread : env.readFile filename = .ok data)
    (hdec : env.unmarshal data = .ok (cfg.map some ++ some bad :: rest))
    (hvalid : ∀ m ∈ cfg, m.Pattern ≠ "" → ∃ re, env.compile m.Pattern = .ok re)
    (hne : bad.Pattern ≠ "") (hbad : env.compile bad.Pattern = .error msg) :
    loadmeta env filename = .panic msg := by
  have hloop : ∀ (l : List (Meta R)) (tbl : Table R),
      (∀ m ∈ l, m.Pattern ≠ "" → ∃ re, env.compile m.Pattern = .ok re) →
      loadmetaLoop env (l.map some ++ some bad :: rest) tbl = .panic msg := by
    intro l
    induction l with
    | nil => intro tbl _; simp [loadmetaLoop, hne, hbad]
    | cons m l ih =>
      intro tbl hv
      have hl : ∀ x ∈ l, x.Pattern ≠ "" → ∃ re, env.compile x.Pattern = .ok re :=
        fun x hx => hv x (List.mem_cons_of_mem _ hx)
      by_cases hp : m.Pattern = ""
      · simpa [loadmetaLoop, hp] using ih _ hl
      · obtain ⟨re, hre⟩ := hv m (List.mem_cons_self _ _) hp
        simpa [loadmetaLoop, hp, hre] using ih _ hl
  simp [loadmeta, hread, hdec, hloop cfg [] hvalid]

/-- A file that cannot be read or does not decode leaves the table as it
was. -/
theorem reload_error {R : Type} (env : Env R) (config : String) (m : Table R)
    (e : String) (h : loadmeta env config = .error e) :
    reload env config m = .serving m := by
  simp [reload, h]

/-- C5, the code at the failing input: on `bad.json`, which decodes and whose
record has the pattern `(`, `loadmeta` does not return an error, it
panics. -/
theorem loadmeta_bad_pattern_panics :
    demo.unmarshal badJSON = .ok [some recBad] ∧
    recBad.Pattern = "(" ∧
    loadmeta demo "bad.json" = .panic "error parsing regexp" := by
  refine ⟨by rfl, by rfl, by decide⟩

/-- C4, the code at the failing input: with the table of `config.json` in
`pkgs.m`, a reload from a missing file or from a file that is not JSON keeps
the table, and a reload from `bad.json`, whose pattern is invalid,
terminates the process. -/
theorem reload_bad_pattern_crashes :
    reload demo "missing.json" (built demo [recFoo] []) = .serving (built demo [recFoo] []) ∧
    reload demo "broken.json" (built demo [recFoo] []) = .serving (built demo [recFoo] []) ∧
    reload demo "bad.json" (built demo [recFoo] []) =
      .crashed "error parsing regexp" := by
  decide

end Fakegoget
